import Mathlib

/-!
Verification of the agentic tool-use loop of the jn-66 discord bot.

The development shallowly embeds, over `List Char`:

* the Python string operations used by the code (`in`-containment,
  `str.split(sep)[-1]`, `str.strip()`), mirroring CPython semantics;
* the two `re.search` patterns of `extract_python_code`
  (`src/docker/agent.py` / `LLMCog._extract_python_code`) as a
  deterministic matcher derived from the leftmost-match / greedy-`\s*` /
  lazy-`[\s\S]+?` behaviour of the Python regex engine;
* the sandbox service `execute_code` (`src/docker/app.py`): submitted
  snippets are modelled as a small statement language covering exactly the
  effects the handler can observe (stdout writes, stderr writes, variable
  binding and lookup in the shared `globals()` namespace, raising, and
  matplotlib figure creation), with the module-global interpreter state
  (`globals()` contents and the set of open pyplot figures) threaded
  between requests, as it is in the Flask process;
* the HTTP client wrapper `_execute_code_in_sandbox` (`src/cogs/llm_cog.py`),
  with transport outcomes (2xx body / non-2xx status / timeout or
  connection error) made explicit;
* the generate/execute/correct loop and the whole `LLMCog.on_message`
  turn, with the two LLM adapters and the network as oracle functions.
  Model calls are `Except`-valued so that a raising stage reaches the
  handler's `except` clause.  The result record additionally logs the
  argument lists of the conversational-model calls and the first coder
  prompt; these logs are pure instrumentation and alter no control flow.
-/

/-! ### Python string primitives over `List Char` -/

/-- Characters matched by the regex class `\s` and stripped by `str.strip()`
(ASCII range; the snippets and prompts in question are ASCII). -/
def pyIsSpace (c : Char) : Bool :=
  c = ' ' || c = '\t' || c = '\n' || c = '\r' || c = '\x0b' || c = '\x0c'

/-- Python `s.strip()`: drop leading and trailing whitespace. -/
def pyStrip (s : List Char) : List Char :=
  ((s.dropWhile pyIsSpace).reverse.dropWhile pyIsSpace).reverse

/-- Length of the maximal whitespace prefix (what a leading greedy `\s*`
consumes). -/
def wsLen (s : List Char) : Nat := (s.takeWhile pyIsSpace).length

/-- Python `pat in s` (substring containment): some position of `s` starts
with `pat`. -/
def containsSub (pat : List Char) : List Char → Bool
  | [] => pat.isEmpty
  | c :: rest => pat.isPrefixOf (c :: rest) || containsSub pat rest

/-- Split `s` at the leftmost occurrence of `pat`: returns the part before
and the part after that occurrence, or `none` when `pat` does not occur. -/
def splitAtSub (pat : List Char) : List Char → Option (List Char × List Char)
  | [] => if pat.isEmpty then some ([], []) else none
  | c :: rest =>
    if pat.isPrefixOf (c :: rest) then some ([], List.drop pat.length (c :: rest))
    else
      match splitAtSub pat rest with
      | some (b, a) => some (c :: b, a)
      | none => none

/-- Repeatedly step past the leftmost occurrence of `pat` (CPython `str.split`
scans left to right, non-overlapping); fuel bounds the recursion. -/
def afterLastSub (pat : List Char) : Nat → List Char → List Char
  | 0, s => s
  | fuel + 1, s =>
    match splitAtSub pat s with
    | none => s
    | some (_, rest) => afterLastSub pat fuel rest

/-- Python `s.split(pat)[-1]`: the segment after the last (left-to-right,
non-overlapping) occurrence of `pat`, or `s` itself when `pat` does not
occur.  Used by `assistant_response.split("[TOOL_USE]")[-1]`. -/
def pyLastSeg (pat s : List Char) : List Char := afterLastSub pat s.length s

/-! ### The code extractor

`extract_python_code` (identical in `src/docker/agent.py:49` and
`src/cogs/llm_cog.py:75`):

    match = re.search(r'```python\s*([\s\S]+?)\s*```', text)
    if match: return match.group(1).strip()
    match = re.search(r'```\s*([\s\S]+?)\s*```', text)
    if match: return match.group(1).strip()
    return text.strip()

Behaviour of `re.search(open + r'\s*([\s\S]+?)\s*' + "```", text)` followed
by `.group(1).strip()`, derived from the engine semantics (leftmost starting
position; first `\s*` greedy with backtracking; `[\s\S]+?` lazy, at least one
character; second `\s*` greedy with backtracking):

* the match starts at the leftmost occurrence of the literal `open` from
  which the rest of the pattern can succeed;
* writing `after` for the text following that occurrence and `w` for the
  length of its maximal whitespace prefix, the closing ``` `` ``` chosen is
  the first occurrence at offset `≥ w + 1` in `after` (the greedy first
  `\s*` keeps the whole whitespace run, and the lazy group cannot be empty,
  so closings inside the run are reachable only by shrinking the run);
  when no such occurrence exists but ``` `` ``` occurs at offset `≥ 1`
  (necessarily at offset exactly `w`, the first non-whitespace position),
  the engine backtracks the first `\s*` by one character and matches with a
  group consisting of whitespace only, so the stripped group is empty;
* the stripped group equals `pyStrip` of everything strictly between the
  `open` occurrence and the chosen closing fence, because the group differs
  from that span only by whitespace absorbed into the two `\s*`. -/

/-- The three-backtick fence delimiter. -/
def bt3L : List Char := "```".data

/-- The Python-tagged opening fence of the first pattern. -/
def pyOpenL : List Char := "```python".data

/-- One `re.search` for pattern `open ++ \s*([\s\S]+?)\s*` ++ ``` `` ```:
scan starting positions left to right; at a position starting with `tag`,
locate the closing fence as derived above; if none, keep scanning. -/
def findFencedAux (tag : List Char) : List Char → Option (List Char)
  | [] => none
  | c :: rest =>
    if tag.isPrefixOf (c :: rest) then
      let after := List.drop tag.length (c :: rest)
      let w := wsLen after
      match splitAtSub bt3L (List.drop (w + 1) after) with
      | some (b, _) => some (pyStrip (List.take (w + 1 + b.length) after))
      | none =>
        match splitAtSub bt3L (List.drop 1 after) with
        | some _ => some []
        | none => findFencedAux tag rest
    else findFencedAux tag rest

/-- `_extract_python_code` / `extract_python_code`: first pattern
(python-tagged fence), then generic fence, then the whole trimmed text. -/
def extract_python_code (text : List Char) : List Char :=
  match findFencedAux pyOpenL text with
  | some r => r
  | none =>
    match findFencedAux bt3L text with
    | some r => r
    | none => pyStrip text

/-! ### The Sandbox Execution Service (`src/docker/app.py`)

The Flask handler `execute_code` runs

    exec(code, globals())

with stdout and stderr redirected into fresh per-request buffers, then (only
when `exec` did not raise) checks `plt.get_fignums()`, saves the current
figure into the per-request image buffer and calls `plt.clf()`, and finally
base64-encodes the image buffer when it is non-empty.  On an exception the
full `traceback.format_exc()` is appended to the captured stderr and the
figure block is skipped.

Submitted snippets are modelled as lists of statements covering the
observable effects of `exec`: writing stdout, writing stderr, binding a
global, reading a global (a `NameError` when unbound), raising, and drawing
with pyplot.  The interpreter state that `exec(code, globals())` and pyplot
share across requests — the module-global namespace and the set of open
figures — is `ServerState` and is threaded from one request to the next,
exactly as in the single Flask process.  `plt.clf()` clears the current
figure's content but leaves the figure registered, so the figure slot stays
`some` (with empty content) rather than becoming `none`; only closing the
figure would make `get_fignums()` empty again. -/

/-- One observable statement of a submitted snippet. -/
inductive Stmt where
  /-- `print("s")` -/
  | printLit (s : List Char)
  /-- `print(x)` for a global name `x` (a `NameError` when unbound) -/
  | printVar (x : List Char)
  /-- `x = v` (binds a module-global) -/
  | assign (x : List Char) (v : Int)
  /-- `sys.stderr.write("s")` (or any library writing to stderr) -/
  | writeStderr (s : List Char)
  /-- `raise Exception("msg")` -/
  | raiseError (msg : List Char)
  /-- `plt.plot(...)`: draw `elem` into the current figure, creating one
  if none is open -/
  | plot (elem : List Char)
deriving DecidableEq

/-- Result of running a snippet inside `exec`: accumulated stdout and
stderr writes, the namespace and figure state after the run, and the
exception (class name, message) that ended it, if any. -/
structure RunResult where
  out : List Char
  errW : List Char
  globalsAfter : List (List Char × Int)
  figsAfter : Option (List (List Char))
  exc : Option (List Char × List Char)
deriving DecidableEq

/-- Rendering of an `Int` by `print` (CPython decimal form). -/
def intStr (v : Int) : List Char := (toString v).data

/-- The `NameError` message for an unbound name (CPython wraps the name in
single quotes; the quotes are elided here). -/
def nameErrorMsg (x : List Char) : List Char :=
  "name ".data ++ x ++ " is not defined".data

/-- Run the statements of a snippet in order, stopping at the first raise.
Bindings and figures created before a raise persist (CPython `exec` mutates
`globals()` in place, and pyplot state is module-global). -/
def runProg : List Stmt → List (List Char × Int) → Option (List (List Char)) → RunResult
  | [], g, f => ⟨[], [], g, f, none⟩
  | stmt :: rest, g, f =>
    match stmt with
    | .printLit s =>
      let r := runProg rest g f
      ⟨s ++ "\n".data ++ r.out, r.errW, r.globalsAfter, r.figsAfter, r.exc⟩
    | .printVar x =>
      match g.lookup x with
      | some v =>
        let r := runProg rest g f
        ⟨intStr v ++ "\n".data ++ r.out, r.errW, r.globalsAfter, r.figsAfter, r.exc⟩
      | none => ⟨[], [], g, f, some ("NameError".data, nameErrorMsg x)⟩
    | .assign x v => runProg rest ((x, v) :: g) f
    | .writeStderr s =>
      let r := runProg rest g f
      ⟨r.out, s ++ r.errW, r.globalsAfter, r.figsAfter, r.exc⟩
    | .raiseError msg => ⟨[], [], g, f, some ("Exception".data, msg)⟩
    | .plot e =>
      match f with
      | none => runProg rest g (some [e])
      | some c => runProg rest g (some (c ++ [e]))

/-- `traceback.format_exc()`: the frame lines are abbreviated to the header;
the final `ExcName: message` line is kept verbatim (it is what the claims
inspect). -/
def tracebackText (excName msg : List Char) : List Char :=
  "Traceback (most recent call last):\n".data ++ excName ++ ": ".data ++ msg ++ "\n".data

/-- PNG bytes produced by `plt.savefig(..., format='png')` for a figure with
the given drawn content: a magic header followed by the content.  A figure
with no content (after `plt.clf()`) still renders to non-empty bytes (a
blank canvas). -/
def pngOf (content : List (List Char)) : List Char :=
  "PNG[".data ++ (content.intersperse ";".data).flatten ++ "]".data

/-- `base64.b64encode(...).decode('utf-8')`, modelled as an injective tagged
text encoding of the byte string. -/
def b64encode (bytes : List Char) : List Char := "b64:".data ++ bytes

/-- The JSON body of a 200 response from `POST /execute`. -/
structure ExecResponse where
  stdout : List Char
  stderr : List Char
  image_b64 : Option (List Char)
deriving DecidableEq

/-- Interpreter state of the sandbox service process that survives between
requests: the `globals()` namespace `exec` runs in, and pyplot's open
figure (with its drawn content). -/
structure ServerState where
  globalsNS : List (List Char × Int)
  figState : Option (List (List Char))
deriving DecidableEq

/-- The state of the service process before it has served any request. -/
def initialServerState : ServerState := ⟨[], none⟩

/-- The Flask handler `execute_code` on one request, returning the
service state it leaves behind together with the response body. -/
def execute_code (st : ServerState) (code : List Stmt) : ServerState × ExecResponse :=
  let r := runProg code st.globalsNS st.figState
  match r.exc with
  | some (n, m) =>
    -- the except-branch: traceback appended to stderr, figure block skipped,
    -- image buffer still empty
    (⟨r.globalsAfter, r.figsAfter⟩, ⟨r.out, r.errW ++ tracebackText n m, none⟩)
  | none =>
    match r.figsAfter with
    | some content =>
      -- plt.get_fignums() non-empty: savefig into the buffer, then plt.clf()
      -- (clearing content but keeping the figure open)
      (⟨r.globalsAfter, some []⟩, ⟨r.out, r.errW, some (b64encode (pngOf content))⟩)
    | none => (⟨r.globalsAfter, none⟩, ⟨r.out, r.errW, none⟩)

/-! ### The sandbox HTTP client (`LLMCog._execute_code_in_sandbox`,
`src/cogs/llm_cog.py:85`) -/

/-- What `requests.post(sandbox_url, json={...}, timeout=30)` followed by
`raise_for_status()` can yield. -/
inductive SandboxReply where
  /-- 2xx with the JSON body -/
  | ok (resp : ExecResponse)
  /-- non-2xx status: `raise_for_status()` raises `HTTPError` -/
  | httpError (status : Nat) (msg : List Char)
  /-- timeout or connection failure: `requests.exceptions.RequestException` -/
  | transportFail (msg : List Char)

/-- The synthetic stderr of the client's `except RequestException` branch. -/
def apiErrorStderr (m : List Char) : List Char :=
  "API Error: Could not connect to the sandbox.\n".data ++ m

/-- `_execute_code_in_sandbox`: every transport-level failure (timeout,
connection error, non-2xx status) is mapped to an `ExecutionOutcome` with
empty stdout, a synthetic stderr and no artifact; the caller never sees an
exception. -/
def execute_code_in_sandbox (net : List Char → SandboxReply) (code : List Char) : ExecResponse :=
  match net code with
  | .ok r => r
  | .httpError _ m => ⟨[], apiErrorStderr m, none⟩
  | .transportFail m => ⟨[], apiErrorStderr m, none⟩

/-! ### Prompts and markers (`LLMCog.on_message`, `src/cogs/llm_cog.py:104`) -/

/-- The tool-use marker token. -/
def MARKERL : List Char := "[TOOL_USE]".data

/-- The instruction wrapper around the tool directive sent to the coder
model (`llm_cog.py:143`). -/
def gen_prompt (directive : List Char) : List Char :=
  "Generate only the Python code for this prompt, without any explanation: ".data ++ directive

/-- The correction prompt built from the failed code and its stderr
(`llm_cog.py:160`). -/
def correction_prompt (code err : List Char) : List Char :=
  "The following Python code failed with an error. Please fix it and provide only the complete, corrected script.\n\nCODE:\n".data
    ++ code ++ "\n\nERROR:\n".data ++ err

/-- The labelled tool output fed to the summarizer and stored as the `tool`
turn (`llm_cog.py:170`). -/
def tool_result_text (r : ExecResponse) : List Char :=
  "[TOOL_RESULT]\nSTDOUT:\n".data ++ r.stdout ++ "\nSTDERR:\n".data ++ r.stderr

/-- The fresh single-turn summarizer prompt (`llm_cog.py:176-180`), with the
source's f-string scaffolding (including its literal indentation, embedded
newlines and stray quote) transcribed verbatim. -/
def summarizer_prompt (userMsg toolOutput : List Char) : List Char :=
  "A user has prompted you with a question and you used a tool to answer it. The tool returns textual answers in STDOUT\n                and any errors in STDERR. Based on the tool\x27s output, provide a concise, natural language answer to my original question.\n\n                [ORIGINAL_QUESTION]".data
    ++ userMsg ++ "\n                ".data ++ toolOutput ++ "\"\n                ".data

/-- The user-visible message of the handler's `except` clause
(`llm_cog.py:206`). -/
def critical_error (e : List Char) : List Char :=
  "Sorry, a critical error occurred in the agentic loop: ".data ++ e

/-- The `UnboundLocalError` text raised when `execution_result` is read
before any loop iteration assigned it (unreachable with `max_retries = 2`,
kept for faithfulness to the read-before-assignment hazard). -/
def unbound_local_msg : List Char :=
  "cannot access local variable \x27execution_result\x27 where it is not associated with a value".data

/-! ### The correction loop and the orchestrator (`LLMCog.on_message`)

The loop state mirrors the Python locals: the running counts of coder-model
calls and sandbox executions (instrumentation), the mutable
`execution_result` variable — `Option`-valued because it is read after the
loop and is unassigned if no loop iteration ran — and the mutable
`generated_code`. -/

/-- The locals of the execution-and-correction loop. -/
structure LoopState where
  genCalls : Nat
  execCalls : Nat
  lastOutcome : Option ExecResponse
  code : List Char
deriving DecidableEq

/-- `for i in range(max_retries)` (`llm_cog.py:148-167`): execute the current
code; break on empty stderr; otherwise, while `i < max_retries - 1`, ask the
coder model for a correction and continue.  `remaining` is
`max_retries - i`; a raising coder call propagates (to the handler's
`except`). -/
def run_correction_loop (coder : List Char → Except (List Char) (List Char))
    (sandbox : List Char → ExecResponse) (maxRetries : Nat) :
    Nat → Nat → LoopState → Except (List Char) LoopState
  | 0, _, st => .ok st
  | remaining + 1, i, st =>
    let res := sandbox st.code
    let st1 : LoopState := ⟨st.genCalls, st.execCalls + 1, some res, st.code⟩
    if res.stderr = [] then .ok st1
    else if i < maxRetries - 1 then
      match coder (correction_prompt st1.code res.stderr) with
      | .error e => .error e
      | .ok raw =>
        run_correction_loop coder sandbox maxRetries remaining (i + 1)
          ⟨st1.genCalls + 1, st1.execCalls, st1.lastOutcome, extract_python_code raw⟩
    else .ok st1

/-- Roles of the dialogue turns. -/
inductive Role where
  | system
  | user
  | assistant
  | tool
deriving DecidableEq

/-- One dialogue turn. -/
structure Turn where
  role : Role
  content : List Char
deriving DecidableEq

/-- The three external collaborators of one turn: the conversational model
(called with a full message list), the coder model (called with one user
prompt), and the sandbox network.  Model calls are `Except`-valued: `.error`
models the call raising. -/
structure Oracles where
  conv : List Turn → Except (List Char) (List Char)
  coder : List Char → Except (List Char) (List Char)
  net : List Char → SandboxReply

/-- Observable result of one `on_message` turn: the conversation history
left behind, the final content of the (single, repeatedly edited) Discord
message, and two instrumentation logs — the message lists passed to the
conversational model, and the first prompt passed to the coder model
(empty when the tool path was not entered). -/
structure OnMsgResult where
  history : List Turn
  userVisible : List Char
  convCalls : List (List Turn)
  coderPrompts : List (List Char)
deriving DecidableEq

/-- The tool-use path of `on_message` (`llm_cog.py:134-203`): extract the
directive after the marker, call the coder, run the correction loop, append
the assistant and tool turns, call the summarizer on a fresh single-turn
prompt, append and show its answer.  Any `.error` lands in the handler's
`except` clause: the thinking message is edited to the critical-error text
and nothing is rolled back. -/
def tool_path (o : Oracles) (history1 : List Turn) (userMsg assistantResponse : List Char) :
    OnMsgResult :=
  let codePrompt := pyStrip (pyLastSeg MARKERL assistantResponse)
  let p0 := gen_prompt codePrompt
  match o.coder p0 with
  | .error e => ⟨history1, critical_error e, [history1], [p0]⟩
  | .ok raw =>
    match run_correction_loop o.coder (execute_code_in_sandbox o.net) 2 2 0
        ⟨1, 0, none, extract_python_code raw⟩ with
    | .error e => ⟨history1, critical_error e, [history1], [p0]⟩
    | .ok st =>
      match st.lastOutcome with
      | none => ⟨history1, critical_error unbound_local_msg, [history1], [p0]⟩
      | some execResult =>
        let toolOutput := tool_result_text execResult
        let history2 := history1 ++ [⟨Role.assistant, assistantResponse⟩, ⟨Role.tool, toolOutput⟩]
        let sprompt := summarizer_prompt userMsg toolOutput
        match o.conv [⟨Role.user, sprompt⟩] with
        | .error e => ⟨history2, critical_error e, [history1, [⟨Role.user, sprompt⟩]], [p0]⟩
        | .ok finalMsg =>
          ⟨history2 ++ [⟨Role.assistant, finalMsg⟩], finalMsg,
            [history1, [⟨Role.user, sprompt⟩]], [p0]⟩

/-- One `on_message` turn (`llm_cog.py:104-208`): append the user turn,
call the conversational model, branch on the `[TOOL_USE]` marker.  A raising
stage is caught by the `except` clause, which edits the already-sent
thinking message — so the turn always resolves to exactly one user-visible
message — but performs no rollback of `self.conversation_history`. -/
def on_message (o : Oracles) (history : List Turn) (userMsg : List Char) : OnMsgResult :=
  let history1 := history ++ [⟨Role.user, userMsg⟩]
  match o.conv history1 with
  | .error e => ⟨history1, critical_error e, [history1], []⟩
  | .ok assistantResponse =>
    if containsSub MARKERL assistantResponse then
      tool_path o history1 userMsg assistantResponse
    else
      ⟨history1 ++ [⟨Role.assistant, assistantResponse⟩], assistantResponse, [history1], []⟩

/-! ### Lemmas about the string primitives -/

theorem isPrefixOf_append_self (p s : List Char) : p.isPrefixOf (p ++ s) = true := by
  rw [List.isPrefixOf_iff_prefix]
  exact List.prefix_append p s

theorem containsSub_of_isPrefixOf {pat s : List Char} (hne : pat ≠ [])
    (h : pat.isPrefixOf s = true) : containsSub pat s = true := by
  cases s with
  | nil =>
    cases pat with
    | nil => exact absurd rfl hne
    | cons c r => simp [List.isPrefixOf] at h
  | cons c rest => simp [containsSub, h]

theorem containsSub_append_left {pat v : List Char} (u : List Char)
    (h : containsSub pat v = true) : containsSub pat (u ++ v) = true := by
  induction u with
  | nil => simpa using h
  | cons c u ih =>
    simp only [List.cons_append, containsSub, Bool.or_eq_true]
    exact Or.inr ih

theorem containsSub_middle {pat : List Char} (hne : pat ≠ []) (u v : List Char) :
    containsSub pat (u ++ pat ++ v) = true := by
  rw [List.append_assoc]
  exact containsSub_append_left u
    (containsSub_of_isPrefixOf hne (isPrefixOf_append_self pat v))

theorem containsSub_exists {pat s : List Char} :
    containsSub pat s = true ↔ ∃ t, pat.isPrefixOf (List.drop t s) = true := by
  induction s with
  | nil =>
    cases pat with
    | nil => simp [containsSub, List.isEmpty, List.isPrefixOf]
    | cons c r => simp [containsSub, List.isEmpty, List.isPrefixOf]
  | cons c rest ih =>
    simp only [containsSub, Bool.or_eq_true, ih]
    constructor
    · rintro (h | ⟨t, ht⟩)
      · exact ⟨0, h⟩
      · exact ⟨t + 1, by simpa [List.drop_succ_cons] using ht⟩
    · rintro ⟨t, ht⟩
      cases t with
      | zero => exact Or.inl ht
      | succ t => exact Or.inr ⟨t, by simpa [List.drop_succ_cons] using ht⟩

theorem containsSub_drop_mono {pat s : List Char} {m n : Nat} (hmn : m ≤ n)
    (h : containsSub pat (List.drop n s) = true) :
    containsSub pat (List.drop m s) = true := by
  rw [containsSub_exists] at h ⊢
  obtain ⟨t, ht⟩ := h
  refine ⟨n - m + t, ?_⟩
  rw [List.drop_drop] at ht ⊢
  have he : m + (n - m + t) = n + t := by omega
  rw [he]
  exact ht

theorem splitAtSub_none_iff (pat s : List Char) :
    splitAtSub pat s = none ↔ containsSub pat s = false := by
  induction s with
  | nil => cases hp : pat.isEmpty <;> simp [splitAtSub, containsSub, hp]
  | cons c rest ih =>
    cases hpre : pat.isPrefixOf (c :: rest) with
    | true => simp [splitAtSub, containsSub, hpre]
    | false =>
      simp only [splitAtSub, containsSub, hpre, Bool.false_or]
      cases hs : splitAtSub pat rest with
      | none => simp [ih.mp hs]
      | some ba =>
        have hc : containsSub pat rest = true := by
          by_contra hcc
          rw [ih.mpr (Bool.not_eq_true _ ▸ hcc)] at hs
          exact Option.noConfusion hs
        simp [hs, hc]

theorem splitAtSub_eq_append {pat s b a : List Char}
    (h : splitAtSub pat s = some (b, a)) : s = b ++ pat ++ a := by
  induction s generalizing b with
  | nil =>
    cases hp : pat.isEmpty with
    | true =>
      simp only [splitAtSub, hp, if_true, Option.some_inj] at h
      obtain ⟨rfl, rfl⟩ : ([] : List Char) = b ∧ ([] : List Char) = a := by
        exact ⟨congrArg Prod.fst h, congrArg Prod.snd h⟩
      have : pat = [] := by cases pat with
        | nil => rfl
        | cons x xs => simp [List.isEmpty] at hp
      simp [this]
    | false => simp [splitAtSub, hp] at h
  | cons c rest ih =>
    cases hpre : pat.isPrefixOf (c :: rest) with
    | true =>
      simp only [splitAtSub, hpre, if_true, Option.some_inj] at h
      obtain ⟨t, ht⟩ := List.isPrefixOf_iff_prefix.mp hpre
      obtain ⟨rfl, rfl⟩ : ([] : List Char) = b ∧ List.drop pat.length (c :: rest) = a :=
        ⟨congrArg Prod.fst h, congrArg Prod.snd h⟩
      rw [← ht, List.drop_left, List.nil_append]
    | false =>
      simp only [splitAtSub, hpre, if_false] at h
      cases hs : splitAtSub pat rest with
      | none => rw [hs] at h; exact Option.noConfusion h
      | some ba =>
        obtain ⟨b', a'⟩ := ba
        rw [hs] at h
        simp only [Option.some_inj] at h
        cases h
        have := ih hs
        simp [this]

theorem splitAtSub_first {pat : List Char} (b a : List Char)
    (h : ∀ t, t < b.length → pat.isPrefixOf (List.drop t (b ++ (pat ++ a))) = false) :
    splitAtSub pat (b ++ (pat ++ a)) = some (b, a) := by
  induction b with
  | nil =>
    simp only [List.nil_append]
    cases pat with
    | nil =>
      cases a with
      | nil => simp [splitAtSub]
      | cons c rest => simp [splitAtSub, List.isPrefixOf]
    | cons p pr =>
      have hpre : (p :: pr).isPrefixOf ((p :: pr) ++ a) = true := isPrefixOf_append_self _ a
      rw [show (p :: pr) ++ a = p :: (pr ++ a) from rfl] at hpre ⊢
      simp only [splitAtSub, hpre, if_true]
      rw [show p :: (pr ++ a) = (p :: pr) ++ a from rfl, List.drop_left]
  | cons c b ih =>
    have h0 : pat.isPrefixOf (c :: (b ++ (pat ++ a))) = false := by
      simpa using h 0 (by simp)
    have hrec := ih (fun t ht => by
      simpa [List.drop_succ_cons] using h (t + 1) (by simpa using Nat.succ_lt_succ ht))
    rw [List.cons_append]
    simp [splitAtSub, h0, hrec]

theorem afterLastSub_stop {pat q : List Char} (h : splitAtSub pat q = none) :
    ∀ fuel, afterLastSub pat fuel q = q := by
  intro fuel
  cases fuel with
  | zero => rfl
  | succ n => simp [afterLastSub, h]

theorem pyLastSeg_unique {pat s p q : List Char}
    (h1 : splitAtSub pat s = some (p, q)) (h2 : splitAtSub pat q = none) :
    pyLastSeg pat s = q := by
  unfold pyLastSeg
  cases s with
  | nil =>
    cases hp : pat.isEmpty with
    | true =>
      simp only [splitAtSub, hp, if_true, Option.some_inj] at h1
      have : ([] : List Char) = q := congrArg Prod.snd h1
      exact this
    | false => simp [splitAtSub, hp] at h1
  | cons c rest =>
    simp only [List.length_cons]
    rw [afterLastSub, h1]
    exact afterLastSub_stop h2 _

/-! ### Whitespace lemmas -/

theorem pyStrip_nil_of_all_space {s : List Char} (h : ∀ c ∈ s, pyIsSpace c = true) :
    pyStrip s = [] := by
  unfold pyStrip
  rw [List.dropWhile_eq_nil_iff.mpr (fun c hc => h c hc)]
  rfl

theorem exists_nonspace_of_pyStrip_ne_nil {s : List Char} (h : pyStrip s ≠ []) :
    ∃ c ∈ s, pyIsSpace c = false := by
  by_contra hc
  push_neg at hc
  refine h (pyStrip_nil_of_all_space (fun c hcs => ?_))
  have := hc c hcs
  cases hb : pyIsSpace c with
  | true => rfl
  | false => exact absurd hb this

theorem wsLen_append {s : List Char} (t : List Char)
    (h : ∃ c ∈ s, pyIsSpace c = false) :
    wsLen (s ++ t) = wsLen s ∧ wsLen s < s.length := by
  induction s with
  | nil => simp at h
  | cons c rest ih =>
    cases hc : pyIsSpace c with
    | false => simp [wsLen, List.takeWhile_cons, hc]
    | true =>
      have h' : ∃ d ∈ rest, pyIsSpace d = false := by
        obtain ⟨d, hd, hdf⟩ := h
        rcases List.mem_cons.mp hd with rfl | hd
        · rw [hc] at hdf; exact absurd hdf (by simp)
        · exact ⟨d, hd, hdf⟩
      obtain ⟨ih1, ih2⟩ := ih h'
      constructor
      · simp only [List.cons_append, wsLen, List.takeWhile_cons, hc, if_true,
          List.length_cons]
        have : (List.takeWhile pyIsSpace (rest ++ t)).length =
            (List.takeWhile pyIsSpace rest).length := ih1
        omega
      · simp only [wsLen, List.takeWhile_cons, hc, if_true, List.length_cons]
        simp only [wsLen] at ih2
        omega

/-! ### Lemmas about the fenced-block matcher -/

theorem findFencedAux_cons_neg {tag : List Char} {c : Char} {rest : List Char}
    (h : tag.isPrefixOf (c :: rest) = false) :
    findFencedAux tag (c :: rest) = findFencedAux tag rest := by
  simp [findFencedAux, h]

theorem findFencedAux_scan {tag : List Char} (pre tl : List Char)
    (h : ∀ t, t < pre.length → tag.isPrefixOf (List.drop t (pre ++ tl)) = false) :
    findFencedAux tag (pre ++ tl) = findFencedAux tag tl := by
  induction pre with
  | nil => rfl
  | cons c pre ih =>
    rw [List.cons_append, findFencedAux_cons_neg (by simpa using h 0 (by simp))]
    exact ih (fun t ht => by
      simpa [List.drop_succ_cons] using h (t + 1) (by simpa using Nat.succ_lt_succ ht))

theorem findFencedAux_none_of_not_contains {tag s : List Char}
    (h : containsSub tag s = false) : findFencedAux tag s = none := by
  induction s with
  | nil => rfl
  | cons c rest ih =>
    simp only [containsSub, Bool.or_eq_false_iff] at h
    rw [findFencedAux_cons_neg h.1]
    exact ih h.2

theorem not_contains_pyOpen {s : List Char} (h : containsSub bt3L s = false) :
    containsSub pyOpenL s = false := by
  induction s with
  | nil => decide
  | cons c rest ih =>
    simp only [containsSub, Bool.or_eq_false_iff] at h ⊢
    refine ⟨?_, ih h.2⟩
    cases hp : pyOpenL.isPrefixOf (c :: rest) with
    | false => rfl
    | true =>
      exfalso
      have h3 : bt3L.isPrefixOf pyOpenL = true := by decide
      have hb : bt3L.isPrefixOf (c :: rest) = true :=
        List.isPrefixOf_iff_prefix.mpr
          ((List.isPrefixOf_iff_prefix.mp h3).trans (List.isPrefixOf_iff_prefix.mp hp))
      rw [h.1] at hb
      exact Bool.noConfusion hb

theorem findFencedAux_at_open (tag X : List Char) (htag : tag ≠ []) :
    findFencedAux tag (tag ++ X) =
      (match splitAtSub bt3L (List.drop (wsLen X + 1) X) with
       | some (b, _) => some (pyStrip (List.take (wsLen X + 1 + b.length) X))
       | none =>
         match splitAtSub bt3L (List.drop 1 X) with
         | some _ => some []
         | none => findFencedAux tag (List.drop 1 (tag ++ X))) := by
  obtain ⟨tc, tr, rfl⟩ : ∃ c r, tag = c :: r := by
    cases tag with
    | nil => exact absurd rfl htag
    | cons c r => exact ⟨c, r, rfl⟩
  have hpre : (tc :: tr).isPrefixOf (tc :: (tr ++ X)) = true :=
    isPrefixOf_append_self (tc :: tr) X
  have hdrop : List.drop (tc :: tr).length (tc :: (tr ++ X)) = X :=
    List.drop_left (tc :: tr) X
  rw [List.cons_append]
  simp only [findFencedAux, hpre, if_true, hdrop, List.drop_succ_cons, List.drop_zero]


theorem findFenced_block (tag pre mid post : List Char) (htag : tag ≠ [])
    (hOpen : ∀ t, t < pre.length →
      tag.isPrefixOf (List.drop t (pre ++ tag ++ mid ++ bt3L ++ post)) = false)
    (hClose : ∀ t, t < mid.length →
      bt3L.isPrefixOf (List.drop t (mid ++ bt3L ++ post)) = false)
    (hMid : pyStrip mid ≠ []) :
    findFencedAux tag (pre ++ tag ++ mid ++ bt3L ++ post) = some (pyStrip mid) := by
  have hn : pre ++ tag ++ mid ++ bt3L ++ post
      = pre ++ (tag ++ (mid ++ (bt3L ++ post))) := by simp [List.append_assoc]
  rw [hn]
  rw [hn] at hOpen
  have hC : ∀ t, t < mid.length →
      bt3L.isPrefixOf (List.drop t (mid ++ (bt3L ++ post))) = false := by
    intro t ht
    have := hClose t ht
    rwa [List.append_assoc] at this
  rw [findFencedAux_scan pre _ hOpen]
  set X := mid ++ (bt3L ++ post) with hX
  rw [findFencedAux_at_open tag X htag]
  obtain ⟨hw1, hw2⟩ := wsLen_append (bt3L ++ post) (exists_nonspace_of_pyStrip_ne_nil hMid)
  have hle : wsLen mid + 1 ≤ mid.length := hw2
  have hdropX : List.drop (wsLen mid + 1) X =
      List.drop (wsLen mid + 1) mid ++ (bt3L ++ post) := by
    rw [hX]
    exact List.drop_append_of_le_length hle
  have hsplit : splitAtSub bt3L (List.drop (wsLen mid + 1) X) =
      some (List.drop (wsLen mid + 1) mid, post) := by
    rw [hdropX]
    apply splitAtSub_first
    intro t ht
    rw [← hdropX, List.drop_drop]
    refine hC (wsLen mid + 1 + t) ?_
    rw [List.length_drop] at ht
    omega
  rw [hw1, hsplit]
  show some (pyStrip (List.take (wsLen mid + 1 + (List.drop (wsLen mid + 1) mid).length) X))
      = some (pyStrip mid)
  have hlen2 : wsLen mid + 1 + (List.drop (wsLen mid + 1) mid).length = mid.length := by
    rw [List.length_drop]
    omega
  rw [hlen2, hX, List.take_left]

theorem containsSub_drop_false_mono {pat s : List Char} {m n : Nat} (hmn : m ≤ n)
    (h : containsSub pat (List.drop m s) = false) :
    containsSub pat (List.drop n s) = false := by
  cases hcc : containsSub pat (List.drop n s) with
  | false => rfl
  | true =>
    rw [containsSub_drop_mono hmn hcc] at h
    exact Bool.noConfusion h

theorem findFencedAux_bt3_no_close {s : List Char}
    (h : ∀ t, t < s.length → bt3L.isPrefixOf (List.drop t s) = true →
        containsSub bt3L (List.drop (t + 4) s) = false) :
    findFencedAux bt3L s = none := by
  induction s with
  | nil => rfl
  | cons c rest ih =>
    have hshift : ∀ t, t < rest.length → bt3L.isPrefixOf (List.drop t rest) = true →
        containsSub bt3L (List.drop (t + 4) rest) = false := by
      intro t ht hp
      have := h (t + 1) (by simpa using Nat.succ_lt_succ ht)
        (by simpa [List.drop_succ_cons] using hp)
      rw [show t + 1 + 4 = t + 4 + 1 from by omega, List.drop_succ_cons] at this
      exact this
    cases hpre : bt3L.isPrefixOf (c :: rest) with
    | false =>
      rw [findFencedAux_cons_neg hpre]
      exact ih hshift
    | true =>
      have hc : containsSub bt3L (List.drop 4 (c :: rest)) = false := by
        simpa using h 0 (by simp) (by simpa using hpre)
      obtain ⟨X, hX⟩ := List.isPrefixOf_iff_prefix.mp hpre
      have hX3 : X = List.drop 3 (c :: rest) := by
        rw [← hX]
        exact (List.drop_left bt3L X).symm
      have e1 : splitAtSub bt3L (List.drop (wsLen X + 1) X) = none := by
        rw [splitAtSub_none_iff, hX3, List.drop_drop]
        exact containsSub_drop_false_mono (by omega) hc
      have e2 : splitAtSub bt3L (List.drop 1 X) = none := by
        rw [splitAtSub_none_iff, hX3, List.drop_drop]
        simpa using hc
      rw [← hX, findFencedAux_at_open bt3L X (by decide), e1, e2]
      show findFencedAux bt3L (List.drop 1 (bt3L ++ X)) = none
      rw [hX, List.drop_succ_cons, List.drop_zero]
      exact ih hshift

theorem findFencedAux_pyOpen_no_close {s : List Char}
    (h : ∀ t, t < s.length → bt3L.isPrefixOf (List.drop t s) = true →
        containsSub bt3L (List.drop (t + 4) s) = false) :
    findFencedAux pyOpenL s = none := by
  induction s with
  | nil => rfl
  | cons c rest ih =>
    have hshift : ∀ t, t < rest.length → bt3L.isPrefixOf (List.drop t rest) = true →
        containsSub bt3L (List.drop (t + 4) rest) = false := by
      intro t ht hp
      have := h (t + 1) (by simpa using Nat.succ_lt_succ ht)
        (by simpa [List.drop_succ_cons] using hp)
      rw [show t + 1 + 4 = t + 4 + 1 from by omega, List.drop_succ_cons] at this
      exact this
    cases hpre : pyOpenL.isPrefixOf (c :: rest) with
    | false =>
      rw [findFencedAux_cons_neg hpre]
      exact ih hshift
    | true =>
      have h3 : bt3L.isPrefixOf pyOpenL = true := by decide
      have hb : bt3L.isPrefixOf (c :: rest) = true :=
        List.isPrefixOf_iff_prefix.mpr
          ((List.isPrefixOf_iff_prefix.mp h3).trans (List.isPrefixOf_iff_prefix.mp hpre))
      have hc : containsSub bt3L (List.drop 4 (c :: rest)) = false := by
        simpa using h 0 (by simp) (by simpa using hb)
      obtain ⟨X, hX⟩ := List.isPrefixOf_iff_prefix.mp hpre
      have hX9 : X = List.drop 9 (c :: rest) := by
        rw [← hX]
        exact (List.drop_left pyOpenL X).symm
      have e1 : splitAtSub bt3L (List.drop (wsLen X + 1) X) = none := by
        rw [splitAtSub_none_iff, hX9, List.drop_drop]
        exact containsSub_drop_false_mono (by omega) hc
      have e2 : splitAtSub bt3L (List.drop 1 X) = none := by
        rw [splitAtSub_none_iff, hX9, List.drop_drop]
        exact containsSub_drop_false_mono (by omega) hc
      rw [← hX, findFencedAux_at_open pyOpenL X (by decide), e1, e2]
      show findFencedAux pyOpenL (List.drop 1 (pyOpenL ++ X)) = none
      rw [hX, List.drop_succ_cons, List.drop_zero]
      exact ih hshift

/-- Claim C8: extractor precedence.  (a) When the text decomposes as
`pre ++ "```python" ++ mid ++ "```" ++ post` with the tagged fence the
leftmost occurrence of `"```python"`, the closing fence the first fence
after the content start, and content that is not pure whitespace, the
extractor returns exactly that first tagged block's content, trimmed.
(b) When no `"```python"` occurs at all and the text decomposes likewise
around a generic fence pair, the extractor returns the first generic
block's content, trimmed.  (c) When no fence occurs at all, it returns the
entire text trimmed.  In every case the result is the single designated
block (never a later one, never a concatenation). -/
theorem extractor_precedence :
    (∀ pre mid post : List Char,
      (∀ t, t < pre.length →
        pyOpenL.isPrefixOf (List.drop t (pre ++ pyOpenL ++ mid ++ bt3L ++ post)) = false) →
      (∀ t, t < mid.length →
        bt3L.isPrefixOf (List.drop t (mid ++ bt3L ++ post)) = false) →
      pyStrip mid ≠ [] →
      extract_python_code (pre ++ pyOpenL ++ mid ++ bt3L ++ post) = pyStrip mid)
    ∧ (∀ pre mid post : List Char,
      containsSub pyOpenL (pre ++ bt3L ++ mid ++ bt3L ++ post) = false →
      (∀ t, t < pre.length →
        bt3L.isPrefixOf (List.drop t (pre ++ bt3L ++ mid ++ bt3L ++ post)) = false) →
      (∀ t, t < mid.length →
        bt3L.isPrefixOf (List.drop t (mid ++ bt3L ++ post)) = false) →
      pyStrip mid ≠ [] →
      extract_python_code (pre ++ bt3L ++ mid ++ bt3L ++ post) = pyStrip mid)
    ∧ (∀ s : List Char, containsSub bt3L s = false →
      extract_python_code s = pyStrip s) := by
  refine ⟨?_, ?_, ?_⟩
  · intro pre mid post hOpen hClose hMid
    unfold extract_python_code
    rw [findFenced_block pyOpenL pre mid post (by decide) hOpen hClose hMid]
  · intro pre mid post hNoPy hOpen hClose hMid
    unfold extract_python_code
    rw [findFencedAux_none_of_not_contains hNoPy,
      findFenced_block bt3L pre mid post (by decide) hOpen hClose hMid]
  · intro s h
    unfold extract_python_code
    rw [findFencedAux_none_of_not_contains (not_contains_pyOpen h),
      findFencedAux_none_of_not_contains h]

/-- Witness for C8: the three precedence cases at concrete inputs.  In the
first, a python-tagged block follows leading prose; in the second, only a
generic block exists; in the third, no fence exists. -/
theorem extractor_precedence_witness :
    extract_python_code ("Sure: ".data ++ pyOpenL ++ "\nprint(5)\n".data ++ bt3L ++ " done".data)
      = "print(5)".data
    ∧ extract_python_code ("Use ".data ++ bt3L ++ "\nfoo()\n".data ++ bt3L ++ " ok".data)
      = "foo()".data
    ∧ extract_python_code "no fences here".data = "no fences here".data := by
  refine ⟨?_, ?_, ?_⟩
  · rw [extractor_precedence.1 "Sure: ".data "\nprint(5)\n".data " done".data
      (by decide) (by decide) (by decide)]
    decide
  · rw [extractor_precedence.2.1 "Use ".data "\nfoo()\n".data " ok".data
      (by decide) (by decide) (by decide) (by decide)]
    decide
  · rw [extractor_precedence.2.2 "no fences here".data (by decide)]
    decide

/-- Claim C10: on an input that contains an opening triple-backtick fence
but no closing fence — formalized as: `"```"` occurs, but no two fence
occurrences are far enough apart (gap at least 4) to serve as an open/close
pair with non-empty lazy group — both regex patterns fail to match and the
extractor returns the entire input trimmed of surrounding whitespace,
fence characters and language tag included. -/
theorem unclosed_fence_fallback :
    ∀ s : List Char, containsSub bt3L s = true →
    (∀ t, t < s.length → bt3L.isPrefixOf (List.drop t s) = true →
        containsSub bt3L (List.drop (t + 4) s) = false) →
    extract_python_code s = pyStrip s := by
  intro s _ h
  unfold extract_python_code
  rw [findFencedAux_pyOpen_no_close h, findFencedAux_bt3_no_close h]

/-- Witness for C10: an opening `"```python"` fence with no closing fence;
the extractor returns the whole trimmed input, fence and tag included. -/
theorem unclosed_fence_fallback_witness :
    extract_python_code "```python\nprint(1)".data = "```python\nprint(1)".data := by
  rw [unclosed_fence_fallback "```python\nprint(1)".data (by decide) (by decide)]
  decide

/-- Claim C5: the marker protocol.  (1) For assistant text with exactly one
occurrence of the `[TOOL_USE]` marker (the text splits as
`p ++ MARKERL ++ q` with no further marker in `q`), the extracted
instruction is everything after the token, trimmed of whitespace.
(2) The spec's example text yields exactly `"Compute 2+2"`.
(3) In `on_message`, presence of the marker in the policy output is
necessary and sufficient for the tool path: without it the text itself is
appended as the assistant turn and returned as the final answer (no coder
prompt is issued); with it the coder is called, the first coder prompt
carrying the trimmed instruction. -/
theorem marker_protocol :
    (∀ s p q : List Char, splitAtSub MARKERL s = some (p, q) →
      containsSub MARKERL q = false →
      s = p ++ MARKERL ++ q ∧ containsSub MARKERL s = true ∧
        pyStrip (pyLastSeg MARKERL s) = pyStrip q)
    ∧ pyStrip (pyLastSeg MARKERL "I will compute it. [TOOL_USE] Compute 2+2".data)
        = "Compute 2+2".data
    ∧ (∀ (o : Oracles) (h : List Turn) (m resp : List Char),
        o.conv (h ++ [⟨Role.user, m⟩]) = .ok resp →
        (containsSub MARKERL resp = false →
          on_message o h m =
            ⟨h ++ [⟨Role.user, m⟩, ⟨Role.assistant, resp⟩], resp,
             [h ++ [⟨Role.user, m⟩]], []⟩)
        ∧ (containsSub MARKERL resp = true →
          (on_message o h m).coderPrompts
            = [gen_prompt (pyStrip (pyLastSeg MARKERL resp))])) := by
  refine ⟨?_, by decide, ?_⟩
  · intro s p q h1 h2
    refine ⟨splitAtSub_eq_append h1, ?_, ?_⟩
    · rw [splitAtSub_eq_append h1]
      exact containsSub_middle (by decide) p q
    · rw [pyLastSeg_unique h1 ((splitAtSub_none_iff _ _).mpr h2)]
  · intro o h m resp hconv
    constructor
    · intro hfalse
      simp only [on_message, hconv, hfalse]
      simp [List.append_assoc]
    · intro htrue
      simp only [on_message, hconv, htrue, if_true]
      simp only [tool_path]
      split
      · rfl
      · split
        · rfl
        · split
          · rfl
          · split
            · rfl
            · rfl

/-- Witness for C5: the spec's example decomposes around a unique marker and
the extracted instruction is `"Compute 2+2"`; a marker-free policy output is
returned verbatim with no coder prompt issued. -/
theorem marker_protocol_witness :
    ("I will compute it. [TOOL_USE] Compute 2+2".data
        = "I will compute it. ".data ++ MARKERL ++ " Compute 2+2".data
      ∧ containsSub MARKERL "I will compute it. [TOOL_USE] Compute 2+2".data = true
      ∧ pyStrip (pyLastSeg MARKERL "I will compute it. [TOOL_USE] Compute 2+2".data)
          = pyStrip " Compute 2+2".data)
    ∧ on_message ⟨fun _ => .ok "hello".data, fun _ => .error [], fun _ => .transportFail []⟩
        [] "hi".data
        = ⟨[⟨Role.user, "hi".data⟩, ⟨Role.assistant, "hello".data⟩], "hello".data,
           [[⟨Role.user, "hi".data⟩]], []⟩ := by
  constructor
  · exact marker_protocol.1 "I will compute it. [TOOL_USE] Compute 2+2".data
      "I will compute it. ".data " Compute 2+2".data (by decide) (by decide)
  · have := (marker_protocol.2.2
      ⟨fun _ => .ok "hello".data, fun _ => .error [], fun _ => .transportFail []⟩
      [] "hi".data "hello".data rfl).1 (by decide)
    simpa using this

theorem run_correction_loop_succ (coder : List Char → Except (List Char) (List Char))
    (sandbox : List Char → ExecResponse) (maxR rem i g e : Nat)
    (l : Option ExecResponse) (cd : List Char) :
    run_correction_loop coder sandbox maxR (rem + 1) i ⟨g, e, l, cd⟩ =
      (if (sandbox cd).stderr = [] then
        .ok ⟨g, e + 1, some (sandbox cd), cd⟩
      else if i < maxR - 1 then
        match coder (correction_prompt cd (sandbox cd).stderr) with
        | .error er => .error er
        | .ok raw =>
          run_correction_loop coder sandbox maxR rem (i + 1)
            ⟨g + 1, e + 1, some (sandbox cd), extract_python_code raw⟩
      else .ok ⟨g, e + 1, some (sandbox cd), cd⟩) := by
  rw [run_correction_loop]

/-- Claim C4: the correction bound.  With the source's `max_retries = 2`:
when every sandbox execution fails (non-empty stderr) and the coder model
always returns, the loop terminates normally (no raise) after exactly 2
code-generation calls (the initial one plus one correction) and exactly 2
sandbox executions, and the outcome it leaves behind is the second (last,
still-failing) execution's outcome — assigned, never a synthetic
placeholder.  When the first execution has empty stderr, the loop stops
immediately with that outcome after 1 generation call and 1 execution. -/
theorem correction_bound :
    (∀ (f : List Char → List Char) (sandbox : List Char → ExecResponse) (c0 : List Char),
      (∀ c, (sandbox c).stderr ≠ []) →
      run_correction_loop (fun p => .ok (f p)) sandbox 2 2 0 ⟨1, 0, none, c0⟩ =
        .ok ⟨2, 2,
          some (sandbox (extract_python_code (f (correction_prompt c0 (sandbox c0).stderr)))),
          extract_python_code (f (correction_prompt c0 (sandbox c0).stderr))⟩
      ∧ (sandbox (extract_python_code (f (correction_prompt c0 (sandbox c0).stderr)))).stderr
          ≠ [])
    ∧ (∀ (coder : List Char → Except (List Char) (List Char))
        (sandbox : List Char → ExecResponse) (c0 : List Char),
      (sandbox c0).stderr = [] →
      run_correction_loop coder sandbox 2 2 0 ⟨1, 0, none, c0⟩
        = .ok ⟨1, 1, some (sandbox c0), c0⟩) := by
  constructor
  · intro f sandbox c0 hfail
    refine ⟨?_, hfail _⟩
    rw [run_correction_loop_succ, if_neg (hfail c0), if_pos (by omega)]
    show run_correction_loop _ _ 2 (0 + 1) 1 _ = _
    rw [run_correction_loop_succ, if_neg (hfail _), if_neg (by omega)]
  · intro coder sandbox c0 hok
    rw [run_correction_loop_succ, if_pos hok]

/-- Witness for C4: with a coder stub that echoes its prompt and a sandbox
stub that always fails with stderr `"e"`, the loop performs exactly 2
generation calls and 2 executions and ends with the last failing outcome;
with a sandbox stub that succeeds, it stops after 1 generation call and 1
execution with that outcome. -/
theorem correction_bound_witness :
    run_correction_loop (fun p => .ok p) (fun _ => ⟨[], "e".data, none⟩) 2 2 0
        ⟨1, 0, none, "c".data⟩ =
      .ok ⟨2, 2, some ⟨[], "e".data, none⟩,
        extract_python_code (correction_prompt "c".data "e".data)⟩
    ∧ run_correction_loop (fun p => .ok p) (fun _ => ⟨"out".data, [], none⟩) 2 2 0
        ⟨1, 0, none, "c".data⟩ = .ok ⟨1, 1, some ⟨"out".data, [], none⟩, "c".data⟩ := by
  constructor
  · have h := (correction_bound.1 (fun p => p) (fun _ => ⟨[], "e".data, none⟩) "c".data
      (fun c => (by decide : (⟨[], "e".data, none⟩ : ExecResponse).stderr ≠ []))).1
    simpa using h
  · exact correction_bound.2 (fun p => .ok p) (fun _ => ⟨"out".data, [], none⟩) "c".data rfl

/-- Claim C7: transport-failure mapping.  For every sandbox call whose
transport layer fails — a timeout or connection failure, or a non-2xx
status (which `raise_for_status()` turns into the same exception class) —
the caller receives an `ExecutionOutcome` with empty stdout, a non-empty
descriptive stderr (the synthetic `API Error` message), and a null
artifact, and no exception escapes to the caller; since the retry loop
branches solely on `stderr == ""`, such an outcome is treated exactly like
an execution failure. -/
theorem transport_failure_mapping :
    ∀ (net : List Char → SandboxReply) (code : List Char),
      (∀ m, net code = .transportFail m →
        execute_code_in_sandbox net code = ⟨[], apiErrorStderr m, none⟩
        ∧ (execute_code_in_sandbox net code).stderr ≠ []
        ∧ (execute_code_in_sandbox net code).image_b64 = none)
      ∧ (∀ st m, net code = .httpError st m →
        execute_code_in_sandbox net code = ⟨[], apiErrorStderr m, none⟩
        ∧ (execute_code_in_sandbox net code).stderr ≠ []
        ∧ (execute_code_in_sandbox net code).image_b64 = none) := by
  have hne : ∀ m : List Char, apiErrorStderr m ≠ [] := by
    intro m h
    unfold apiErrorStderr at h
    rw [List.append_eq_nil] at h
    exact (by decide : ("API Error: Could not connect to the sandbox.\n".data : List Char) ≠ [])
      h.1
  intro net code
  constructor
  · intro m hm
    refine ⟨?_, ?_, ?_⟩ <;> simp [execute_code_in_sandbox, hm, hne m]
  · intro st m hm
    refine ⟨?_, ?_, ?_⟩ <;> simp [execute_code_in_sandbox, hm, hne m]

/-- Witness for C7: a timed-out sandbox call at a concrete code string. -/
theorem transport_failure_mapping_witness :
    execute_code_in_sandbox (fun _ => .transportFail "timed out".data) "print(1)".data
      = ⟨[], apiErrorStderr "timed out".data, none⟩
    ∧ (execute_code_in_sandbox (fun _ => .transportFail "timed out".data)
        "print(1)".data).stderr ≠ []
    ∧ (execute_code_in_sandbox (fun _ => .transportFail "timed out".data)
        "print(1)".data).image_b64 = none := by
  have h := (transport_failure_mapping (fun _ => .transportFail "timed out".data)
    "print(1)".data).1 "timed out".data rfl
  exact ⟨h.1, h.2.1, h.2.2⟩

theorem runProg_printLit (s : List Char) (rest : List Stmt) (g : List (List Char × Int))
    (f : Option (List (List Char))) :
    runProg (.printLit s :: rest) g f =
      ⟨s ++ "\n".data ++ (runProg rest g f).out, (runProg rest g f).errW,
        (runProg rest g f).globalsAfter, (runProg rest g f).figsAfter,
        (runProg rest g f).exc⟩ := rfl

theorem runProg_printVar_some {x : List Char} {v : Int} {g : List (List Char × Int)}
    (rest : List Stmt) (f : Option (List (List Char))) (hl : g.lookup x = some v) :
    runProg (.printVar x :: rest) g f =
      ⟨intStr v ++ "\n".data ++ (runProg rest g f).out, (runProg rest g f).errW,
        (runProg rest g f).globalsAfter, (runProg rest g f).figsAfter,
        (runProg rest g f).exc⟩ := by
  rw [runProg, hl]

theorem runProg_printVar_none {x : List Char} {g : List (List Char × Int)}
    (rest : List Stmt) (f : Option (List (List Char))) (hl : g.lookup x = none) :
    runProg (.printVar x :: rest) g f =
      ⟨[], [], g, f, some ("NameError".data, nameErrorMsg x)⟩ := by
  rw [runProg, hl]

theorem runProg_assign (x : List Char) (v : Int) (rest : List Stmt)
    (g : List (List Char × Int)) (f : Option (List (List Char))) :
    runProg (.assign x v :: rest) g f = runProg rest ((x, v) :: g) f := rfl

theorem runProg_writeStderr (s : List Char) (rest : List Stmt) (g : List (List Char × Int))
    (f : Option (List (List Char))) :
    runProg (.writeStderr s :: rest) g f =
      ⟨(runProg rest g f).out, s ++ (runProg rest g f).errW,
        (runProg rest g f).globalsAfter, (runProg rest g f).figsAfter,
        (runProg rest g f).exc⟩ := rfl

theorem runProg_raise (m : List Char) (rest : List Stmt) (g : List (List Char × Int))
    (f : Option (List (List Char))) :
    runProg (.raiseError m :: rest) g f = ⟨[], [], g, f, some ("Exception".data, m)⟩ := rfl

theorem runProg_plot_none (e : List Char) (rest : List Stmt) (g : List (List Char × Int)) :
    runProg (.plot e :: rest) g none = runProg rest g (some [e]) := rfl

theorem runProg_plot_some (e : List Char) (rest : List Stmt) (g : List (List Char × Int))
    (c : List (List Char)) :
    runProg (.plot e :: rest) g (some c) = runProg rest g (some (c ++ [e])) := rfl

theorem runProg_append (xs ys : List Stmt) :
    ∀ (g : List (List Char × Int)) (f : Option (List (List Char))),
    (runProg xs g f).exc = none →
    runProg (xs ++ ys) g f =
      ⟨(runProg xs g f).out
          ++ (runProg ys (runProg xs g f).globalsAfter (runProg xs g f).figsAfter).out,
        (runProg xs g f).errW
          ++ (runProg ys (runProg xs g f).globalsAfter (runProg xs g f).figsAfter).errW,
        (runProg ys (runProg xs g f).globalsAfter (runProg xs g f).figsAfter).globalsAfter,
        (runProg ys (runProg xs g f).globalsAfter (runProg xs g f).figsAfter).figsAfter,
        (runProg ys (runProg xs g f).globalsAfter (runProg xs g f).figsAfter).exc⟩ := by
  induction xs with
  | nil =>
    intro g f _
    simp [runProg]
  | cons stmt xs ih =>
    intro g f h
    cases stmt with
    | printLit s =>
      rw [runProg_printLit] at h
      rw [List.cons_append, runProg_printLit, runProg_printLit, ih g f h]
      simp [List.append_assoc]
    | printVar x =>
      cases hl : g.lookup x with
      | some v =>
        rw [runProg_printVar_some xs f hl] at h
        rw [List.cons_append, runProg_printVar_some (xs ++ ys) f hl,
          runProg_printVar_some xs f hl, ih g f h]
        simp [List.append_assoc]
      | none =>
        rw [runProg_printVar_none xs f hl] at h
        simp at h
    | assign x v =>
      rw [runProg_assign] at h
      rw [List.cons_append, runProg_assign, runProg_assign, ih _ f h]
    | writeStderr s =>
      rw [runProg_writeStderr] at h
      rw [List.cons_append, runProg_writeStderr, runProg_writeStderr, ih g f h]
      simp [List.append_assoc]
    | raiseError m =>
      rw [runProg_raise] at h
      simp at h
    | plot e =>
      cases f with
      | none =>
        rw [runProg_plot_none] at h
        rw [List.cons_append, runProg_plot_none, runProg_plot_none, ih g (some [e]) h]
      | some c =>
        rw [runProg_plot_some] at h
        rw [List.cons_append, runProg_plot_some, runProg_plot_some, ih g (some (c ++ [e])) h]

theorem tracebackText_ne_nil (n m : List Char) : tracebackText n m ≠ [] := by
  intro h
  unfold tracebackText at h
  exact absurd (List.append_eq_nil.mp h).2 (by decide)

theorem execute_code_raise {st : ServerState} {prog : List Stmt} {n m : List Char}
    (h : (runProg prog st.globalsNS st.figState).exc = some (n, m)) :
    execute_code st prog =
      (⟨(runProg prog st.globalsNS st.figState).globalsAfter,
        (runProg prog st.globalsNS st.figState).figsAfter⟩,
       ⟨(runProg prog st.globalsNS st.figState).out,
        (runProg prog st.globalsNS st.figState).errW ++ tracebackText n m, none⟩) := by
  simp only [execute_code]
  rw [h]

theorem execute_code_ok_fig {st : ServerState} {prog : List Stmt}
    {content : List (List Char)}
    (h1 : (runProg prog st.globalsNS st.figState).exc = none)
    (h2 : (runProg prog st.globalsNS st.figState).figsAfter = some content) :
    execute_code st prog =
      (⟨(runProg prog st.globalsNS st.figState).globalsAfter, some []⟩,
       ⟨(runProg prog st.globalsNS st.figState).out,
        (runProg prog st.globalsNS st.figState).errW,
        some (b64encode (pngOf content))⟩) := by
  simp only [execute_code]
  rw [h1, h2]

theorem execute_code_ok_nofig {st : ServerState} {prog : List Stmt}
    (h1 : (runProg prog st.globalsNS st.figState).exc = none)
    (h2 : (runProg prog st.globalsNS st.figState).figsAfter = none) :
    execute_code st prog =
      (⟨(runProg prog st.globalsNS st.figState).globalsAfter, none⟩,
       ⟨(runProg prog st.globalsNS st.figState).out,
        (runProg prog st.globalsNS st.figState).errW, none⟩) := by
  simp only [execute_code]
  rw [h1, h2]

/-- Claim C3 (amended): captured stderr is exactly what the code wrote to
stderr, followed — when the code raised — by the full traceback text.
Hence (1) `stderr == ""` iff the code neither raised nor wrote to stderr
(the original claim's "iff it did not raise" fails for code that writes to
stderr without raising, see the counterexample), and (2) when the code
raises, stderr is non-empty and contains the exception's textual
representation, stdout is exactly the output produced before the raise,
and the handler still returns a response (the exception does not
propagate: `execute_code` is total). -/
theorem stderr_error_contract_amended :
    (∀ (st : ServerState) (prog : List Stmt),
      (execute_code st prog).2.stderr = [] ↔
        (runProg prog st.globalsNS st.figState).exc = none
        ∧ (runProg prog st.globalsNS st.figState).errW = [])
    ∧ (∀ (st : ServerState) (pre : List Stmt) (msg : List Char) (post : List Stmt),
      (runProg pre st.globalsNS st.figState).exc = none →
      (execute_code st (pre ++ Stmt.raiseError msg :: post)).2.stdout
          = (runProg pre st.globalsNS st.figState).out
      ∧ (execute_code st (pre ++ Stmt.raiseError msg :: post)).2.stderr ≠ []
      ∧ containsSub ("Exception: ".data ++ msg)
          (execute_code st (pre ++ Stmt.raiseError msg :: post)).2.stderr = true) := by
  constructor
  · intro st prog
    cases hexc : (runProg prog st.globalsNS st.figState).exc with
    | some nm =>
      obtain ⟨n, m⟩ := nm
      rw [execute_code_raise hexc]
      constructor
      · intro hc
        exact absurd (List.append_eq_nil.mp hc).2 (tracebackText_ne_nil n m)
      · rintro ⟨he, _⟩
        exact Option.noConfusion he
    | none =>
      cases hfig : (runProg prog st.globalsNS st.figState).figsAfter with
      | some content =>
        rw [execute_code_ok_fig hexc hfig]
        simp [hexc]
      | none =>
        rw [execute_code_ok_nofig hexc hfig]
        simp [hexc]
  · intro st pre msg post hnone
    have hsplit := runProg_append pre (Stmt.raiseError msg :: post)
      st.globalsNS st.figState hnone
    rw [runProg_raise] at hsplit
    have hexc : (runProg (pre ++ Stmt.raiseError msg :: post) st.globalsNS st.figState).exc
        = some ("Exception".data, msg) := by rw [hsplit]
    rw [execute_code_raise hexc]
    refine ⟨?_, ?_, ?_⟩
    · rw [hsplit]
      simp
    · intro hc
      exact absurd (List.append_eq_nil.mp hc).2 (tracebackText_ne_nil _ _)
    · have hre : (runProg (pre ++ Stmt.raiseError msg :: post) st.globalsNS st.figState).errW
            ++ tracebackText "Exception".data msg
          = ((runProg (pre ++ Stmt.raiseError msg :: post) st.globalsNS st.figState).errW
              ++ "Traceback (most recent call last):\n".data)
            ++ ("Exception: ".data ++ msg) ++ "\n".data := by
        have hlit : ("Exception: ".data : List Char) = "Exception".data ++ ": ".data := by
          decide
        rw [hlit]
        simp [tracebackText, List.append_assoc]
      rw [hre]
      refine containsSub_middle ?_ _ _
      intro hc
      exact absurd (List.append_eq_nil.mp hc).1 (by decide)

/-- Counterexample to claim C3 as stated: `sys.stderr.write("warning")`
executes without raising, yet the outcome's stderr is the non-empty
`"warning"` — so "stderr is empty iff the code executed without raising"
fails in the only-if direction for code that writes to stderr. -/
theorem stderr_success_iff_cex :
    (runProg [Stmt.writeStderr "warning".data] initialServerState.globalsNS
        initialServerState.figState).exc = none
    ∧ (execute_code initialServerState [Stmt.writeStderr "warning".data]).2.stderr
        = "warning".data
    ∧ "warning".data ≠ ([] : List Char) := by
  refine ⟨rfl, rfl, by decide⟩

/-- Witness for the amended C3: `print("a")` alone yields empty stderr;
`print("a")` followed by `raise Exception("boom")` yields stdout `"a\n"`
(exactly the pre-raise output) and a non-empty stderr containing
`"Exception: boom"`. -/
theorem stderr_error_contract_amended_witness :
    (execute_code initialServerState [Stmt.printLit "a".data]).2.stderr = []
    ∧ (execute_code initialServerState
        ([Stmt.printLit "a".data] ++ Stmt.raiseError "boom".data :: [])).2.stdout = "a\n".data
    ∧ (execute_code initialServerState
        ([Stmt.printLit "a".data] ++ Stmt.raiseError "boom".data :: [])).2.stderr ≠ []
    ∧ containsSub ("Exception: ".data ++ "boom".data)
        (execute_code initialServerState
          ([Stmt.printLit "a".data] ++ Stmt.raiseError "boom".data :: [])).2.stderr
        = true := by
  have h1 := (stderr_error_contract_amended.1 initialServerState
    [Stmt.printLit "a".data]).mpr ⟨rfl, rfl⟩
  have h2 := stderr_error_contract_amended.2 initialServerState
    [Stmt.printLit "a".data] "boom".data [] rfl
  exact ⟨h1, h2.1.trans (by decide), h2.2.1, h2.2.2⟩

/-- Claim C1 is violated by the code (code bug): `exec(code, globals())`
runs every request in the one module-global namespace of the Flask
process, so a variable bound by one request remains visible to the next.
After serving `x = 42`, the request `print(x)` answers with stdout
`"42\n"` and empty stderr — no `NameError`-class failure — whereas the
same request served from a fresh interpreter state does produce a
non-empty stderr containing `NameError`, confirming the leak is due to
the carried-over state. -/
theorem cross_request_state_leak :
    (execute_code initialServerState [Stmt.assign "x".data 42]).2.stderr = []
    ∧ (execute_code (execute_code initialServerState [Stmt.assign "x".data 42]).1
        [Stmt.printVar "x".data]).2.stdout = "42\n".data
    ∧ (execute_code (execute_code initialServerState [Stmt.assign "x".data 42]).1
        [Stmt.printVar "x".data]).2.stderr = []
    ∧ containsSub "NameError".data
        (execute_code (execute_code initialServerState [Stmt.assign "x".data 42]).1
          [Stmt.printVar "x".data]).2.stderr = false
    ∧ (execute_code initialServerState [Stmt.printVar "x".data]).2.stderr ≠ []
    ∧ containsSub "NameError".data
        (execute_code initialServerState [Stmt.printVar "x".data]).2.stderr = true := by
  refine ⟨rfl, by decide, rfl, by decide, by decide, by decide⟩

/-- Claim C2 is violated by the code (code bug): `plt.clf()` clears the
current figure's content but leaves the figure registered, so on the next
request `plt.get_fignums()` is still non-empty and the handler saves and
returns a (blank) image.  A plotting request from a clean state returns its
rendered figure, and a non-plotting request from a clean state returns a
null artifact — but a non-plotting request served right after a plotting
one returns a non-null `image_b64` (the encoding of an empty figure)
instead of null. -/
theorem figure_state_leak :
    (execute_code initialServerState [Stmt.plot "line1".data]).2.image_b64
        = some (b64encode (pngOf ["line1".data]))
    ∧ (execute_code initialServerState [Stmt.printLit "hi".data]).2.image_b64 = none
    ∧ (execute_code (execute_code initialServerState [Stmt.plot "line1".data]).1
        [Stmt.printLit "hi".data]).2.image_b64 = some (b64encode (pngOf []))
    ∧ (execute_code (execute_code initialServerState [Stmt.plot "line1".data]).1
        [Stmt.printLit "hi".data]).2.image_b64 ≠ none := by
  refine ⟨rfl, rfl, rfl, by decide⟩

theorem containsSub_append_right {pat u : List Char} (v : List Char)
    (h : containsSub pat u = true) : containsSub pat (u ++ v) = true := by
  rw [containsSub_exists] at h ⊢
  obtain ⟨t, ht⟩ := h
  refine ⟨t, ?_⟩
  rw [List.isPrefixOf_iff_prefix] at ht ⊢
  refine ht.trans ?_
  rw [List.drop_append_eq_append_drop]
  exact List.prefix_append _ _

theorem containsSub_suffix (u pat : List Char) : containsSub pat (u ++ pat) = true := by
  rw [containsSub_exists]
  refine ⟨u.length, ?_⟩
  rw [List.drop_left, List.isPrefixOf_iff_prefix]

/-- Counterexample to claim C6 as stated: when the reasoning call raises,
the handler's `except` clause edits the thinking message to the
critical-error text but rolls nothing back, so the user turn appended at
the start of the turn persists with no assistant turn — the dialogue is
left half-appended (history grew from one turn to two, the new one a user
turn with no assistant turn following), contradicting "either all of the
turn's appends are present or none". -/
theorem turn_atomicity_cex :
    (on_message ⟨fun _ => .error "boom".data, fun _ => .error [], fun _ => .transportFail []⟩
        [⟨Role.system, "sys".data⟩] "hi".data).history
      = [⟨Role.system, "sys".data⟩, ⟨Role.user, "hi".data⟩]
    ∧ (on_message ⟨fun _ => .error "boom".data, fun _ => .error [], fun _ => .transportFail []⟩
        [⟨Role.system, "sys".data⟩] "hi".data).userVisible
      = critical_error "boom".data
    ∧ ((on_message ⟨fun _ => .error "boom".data, fun _ => .error [], fun _ => .transportFail []⟩
        [⟨Role.system, "sys".data⟩] "hi".data).history.filter
          (fun t => t.role == Role.assistant)).length = 0 := by
  refine ⟨rfl, rfl, rfl⟩

/-- Claim C6 (amended): on any uncaught stage failure the turn still
resolves to exactly one user-visible message — the critical-error edit of
the single, already-sent thinking message — but the persistent dialogue is
not rolled back: appends made before the failing stage persist.  A failing
reasoning call leaves exactly the user turn appended; a failing coder call
likewise; a failing summarizer call leaves the user, assistant and tool
turns appended with no final assistant turn. -/
theorem turn_atomicity_amended :
    ∀ (o : Oracles) (h : List Turn) (m e : List Char),
      (o.conv (h ++ [⟨Role.user, m⟩]) = .error e →
        on_message o h m
          = ⟨h ++ [⟨Role.user, m⟩], critical_error e, [h ++ [⟨Role.user, m⟩]], []⟩)
      ∧ (∀ resp, o.conv (h ++ [⟨Role.user, m⟩]) = .ok resp →
          containsSub MARKERL resp = true →
          o.coder (gen_prompt (pyStrip (pyLastSeg MARKERL resp))) = .error e →
          on_message o h m
            = ⟨h ++ [⟨Role.user, m⟩], critical_error e, [h ++ [⟨Role.user, m⟩]],
               [gen_prompt (pyStrip (pyLastSeg MARKERL resp))]⟩)
      ∧ (∀ resp raw out, o.conv (h ++ [⟨Role.user, m⟩]) = .ok resp →
          containsSub MARKERL resp = true →
          o.coder (gen_prompt (pyStrip (pyLastSeg MARKERL resp))) = .ok raw →
          o.net (extract_python_code raw) = .ok out →
          out.stderr = [] →
          o.conv [⟨Role.user, summarizer_prompt m (tool_result_text out)⟩] = .error e →
          on_message o h m
            = ⟨h ++ [⟨Role.user, m⟩]
                 ++ [⟨Role.assistant, resp⟩, ⟨Role.tool, tool_result_text out⟩],
               critical_error e,
               [h ++ [⟨Role.user, m⟩],
                [⟨Role.user, summarizer_prompt m (tool_result_text out)⟩]],
               [gen_prompt (pyStrip (pyLastSeg MARKERL resp))]⟩) := by
  intro o h m e
  refine ⟨?_, ?_, ?_⟩
  · intro h1
    simp only [on_message, h1]
  · intro resp h1 h2 h3
    simp only [on_message, h1, h2, if_true, tool_path, h3]
  · intro resp raw out h1 h2 h3 h4 h5 h6
    have hsand : execute_code_in_sandbox o.net (extract_python_code raw) = out := by
      simp [execute_code_in_sandbox, h4]
    have hloop : run_correction_loop o.coder (execute_code_in_sandbox o.net) 2 2 0
        ⟨1, 0, none, extract_python_code raw⟩
        = .ok ⟨1, 1, some out, extract_python_code raw⟩ := by
      rw [run_correction_loop_succ, hsand, if_pos h5]
    simp only [on_message, h1, h2, if_true, tool_path, h3, hloop, h6]

/-- Witness for the amended C6: a reasoning call that raises leaves exactly
the half-appended user turn and resolves to the single critical-error
message. -/
theorem turn_atomicity_amended_witness :
    on_message ⟨fun _ => .error "boom".data, fun _ => .error [], fun _ => .transportFail []⟩
        [] "hi".data
      = ⟨[⟨Role.user, "hi".data⟩], critical_error "boom".data,
         [[⟨Role.user, "hi".data⟩]], []⟩ := by
  have hres := (turn_atomicity_amended
    ⟨fun _ => .error "boom".data, fun _ => .error [], fun _ => .transportFail []⟩
    [] "hi".data "boom".data).1 rfl
  simpa using hres

/-- Claim C9: Result Synthesizer prompt freshness.  On a successful
tool-path turn, the final answer is produced by a conversational-model call
whose message list is exactly the fresh single-turn list
`[{role: user, content: summarizer_prompt}]` — not the accumulated
dialogue: the logged call sequence is `[history1, [single summarizer
turn]]`, the second list has length one and differs from the dialogue as
it stands at that point, and the summarizer prompt contains the original
user question, the labelled `STDOUT:` and `STDERR:` headers, and the
terminal outcome's stdout and stderr texts. -/
theorem synthesizer_freshness :
    ∀ (o : Oracles) (h : List Turn) (m resp raw : List Char) (out : ExecResponse)
      (fin : List Char),
      o.conv (h ++ [⟨Role.user, m⟩]) = .ok resp →
      containsSub MARKERL resp = true →
      o.coder (gen_prompt (pyStrip (pyLastSeg MARKERL resp))) = .ok raw →
      o.net (extract_python_code raw) = .ok out →
      out.stderr = [] →
      o.conv [⟨Role.user, summarizer_prompt m (tool_result_text out)⟩] = .ok fin →
      on_message o h m
        = ⟨h ++ [⟨Role.user, m⟩]
             ++ [⟨Role.assistant, resp⟩, ⟨Role.tool, tool_result_text out⟩]
             ++ [⟨Role.assistant, fin⟩],
           fin,
           [h ++ [⟨Role.user, m⟩],
            [⟨Role.user, summarizer_prompt m (tool_result_text out)⟩]],
           [gen_prompt (pyStrip (pyLastSeg MARKERL resp))]⟩
      ∧ [Turn.mk Role.user (summarizer_prompt m (tool_result_text out))].length = 1
      ∧ containsSub m (summarizer_prompt m (tool_result_text out)) = true
      ∧ containsSub "STDOUT:".data (summarizer_prompt m (tool_result_text out)) = true
      ∧ containsSub "STDERR:".data (summarizer_prompt m (tool_result_text out)) = true
      ∧ containsSub out.stdout (summarizer_prompt m (tool_result_text out)) = true
      ∧ containsSub out.stderr (summarizer_prompt m (tool_result_text out)) = true
      ∧ [Turn.mk Role.user (summarizer_prompt m (tool_result_text out))]
          ≠ h ++ [⟨Role.user, m⟩]
             ++ [⟨Role.assistant, resp⟩, ⟨Role.tool, tool_result_text out⟩] := by
  intro o h m resp raw out fin h1 h2 h3 h4 h5 h6
  have hsand : execute_code_in_sandbox o.net (extract_python_code raw) = out := by
    simp [execute_code_in_sandbox, h4]
  have hloop : run_correction_loop o.coder (execute_code_in_sandbox o.net) 2 2 0
      ⟨1, 0, none, extract_python_code raw⟩
      = .ok ⟨1, 1, some out, extract_python_code raw⟩ := by
    rw [run_correction_loop_succ, hsand, if_pos h5]
  refine ⟨?_, rfl, ?_, ?_, ?_, ?_, ?_, ?_⟩
  · simp only [on_message, h1, h2, if_true, tool_path, h3, hloop, h6]
  · unfold summarizer_prompt
    apply containsSub_append_right
    apply containsSub_append_right
    apply containsSub_append_right
    exact containsSub_suffix _ m
  · unfold summarizer_prompt tool_result_text
    apply containsSub_append_right
    apply containsSub_append_left
    apply containsSub_append_right
    apply containsSub_append_right
    apply containsSub_append_right
    decide
  · unfold summarizer_prompt tool_result_text
    apply containsSub_append_right
    apply containsSub_append_left
    apply containsSub_append_right
    apply containsSub_append_left
    decide
  · unfold summarizer_prompt tool_result_text
    apply containsSub_append_right
    apply containsSub_append_left
    apply containsSub_append_right
    apply containsSub_append_right
    exact containsSub_suffix _ out.stdout
  · unfold summarizer_prompt tool_result_text
    apply containsSub_append_right
    apply containsSub_append_left
    exact containsSub_suffix _ out.stderr
  · intro heq
    have hl := congrArg List.length heq
    simp only [List.length_append, List.length_cons, List.length_nil] at hl
    omega

/-- Witness for C9: a concrete successful tool-path turn.  The logged
conversational-model calls are exactly the accumulated history (reasoning
call) and then the fresh single-turn summarizer prompt; the final visible
answer is the summarizer's reply. -/
theorem synthesizer_freshness_witness :
    on_message
      ⟨fun msgs => if msgs.length = 1 then .ok "done".data
          else .ok "ok [TOOL_USE] compute sqrt".data,
        fun _ => .ok "```python\nprint(1)\n```".data,
        fun _ => .ok ⟨"1\n".data, [], none⟩⟩
      [⟨Role.system, "s".data⟩] "what is sqrt(256)?".data
      = ⟨[⟨Role.system, "s".data⟩, ⟨Role.user, "what is sqrt(256)?".data⟩,
          ⟨Role.assistant, "ok [TOOL_USE] compute sqrt".data⟩,
          ⟨Role.tool, tool_result_text ⟨"1\n".data, [], none⟩⟩,
          ⟨Role.assistant, "done".data⟩],
         "done".data,
         [[⟨Role.system, "s".data⟩, ⟨Role.user, "what is sqrt(256)?".data⟩],
          [⟨Role.user, summarizer_prompt "what is sqrt(256)?".data
             (tool_result_text ⟨"1\n".data, [], none⟩)⟩]],
         [gen_prompt (pyStrip (pyLastSeg MARKERL "ok [TOOL_USE] compute sqrt".data))]⟩
    ∧ containsSub "what is sqrt(256)?".data
        (summarizer_prompt "what is sqrt(256)?".data
          (tool_result_text ⟨"1\n".data, [], none⟩)) = true := by
  have hres := synthesizer_freshness
    ⟨fun msgs => if msgs.length = 1 then .ok "done".data
        else .ok "ok [TOOL_USE] compute sqrt".data,
      fun _ => .ok "```python\nprint(1)\n```".data,
      fun _ => .ok ⟨"1\n".data, [], none⟩⟩
    [⟨Role.system, "s".data⟩] "what is sqrt(256)?".data
    "ok [TOOL_USE] compute sqrt".data "```python\nprint(1)\n```".data
    ⟨"1\n".data, [], none⟩ "done".data
    rfl (by decide) rfl rfl rfl rfl
  refine ⟨?_, hres.2.2.1⟩
  have h := hres.1
  simpa using h
